import Mathlib

/-!
Verification development for the QGC creditor-analysis core
(`src/utils/ai_analyzer.py`).

The development shallowly embeds the core's data model and operations:

* `JValue` models Python JSON values as produced by `json.loads`
  (numbers are kept as their lexemes, since no operation of the core
  inspects numeric magnitude).
* `json_loads` is a concrete, total (fuel-based) model of Python's
  strict `json.loads`: it returns `none` exactly where the Python
  function raises `json.JSONDecodeError`.
* The layered fallback strategies of `_parse_ai_response` /
  `_parse_comparison_response` are modelled as concrete string
  functions mirroring the regular expressions used in the source.
* The external generative service (`fal_client.run`) is modelled as an
  oracle.  For the consolidation pipeline the oracle maps a call index
  and the prompted batch to either a thrown exception (`Except.error`)
  or the record list obtained by parsing the response content in array
  mode; for the extraction pipeline the oracle maps the chunk index to
  either an exception or the raw response content string.
-/

set_option autoImplicit false

/-- Model of a Python JSON value as returned by `json.loads`.  Numbers
are kept as their source lexeme; object fields are an association list
with distinct keys (duplicates collapse at parse time, as in Python). -/
inductive JValue where
  | null
  | bool (b : Bool)
  | num (lexeme : String)
  | str (s : String)
  | arr (elems : List JValue)
  | obj (fields : List (String × JValue))
deriving Inhabited

mutual

/-- Structural equality of JSON values, modelling Python `==` on the
values `json.loads` returns (for the objects built by the core, whose
field order is the parse order, structural equality coincides with
Python's order-insensitive dict equality). -/
def jeq : JValue → JValue → Bool
  | .null, .null => true
  | .bool x, .bool y => x == y
  | .num x, .num y => x == y
  | .str x, .str y => x == y
  | .arr xs, .arr ys => jeqList xs ys
  | .obj xs, .obj ys => jeqFields xs ys
  | _, _ => false

/-- Elementwise `jeq` on lists. -/
def jeqList : List JValue → List JValue → Bool
  | [], [] => true
  | x :: xs, y :: ys => jeq x y && jeqList xs ys
  | _, _ => false

/-- Elementwise key/value `jeq` on object fields. -/
def jeqFields : List (String × JValue) → List (String × JValue) → Bool
  | [], [] => true
  | (k1, v1) :: xs, (k2, v2) :: ys => k1 == k2 && jeq v1 v2 && jeqFields xs ys
  | _, _ => false

end

/-- Model of a Python dict with string keys (a creditor record, §3 of
the spec: an open-ended mapping from field name to value). -/
abbrev Record := List (String × JValue)

/-- Model of Python dict lookup `d[k]` / `d.get(k)`. -/
def dictGet (r : Record) (k : String) : Option JValue :=
  (r.find? (fun p => p.1 = k)).map (fun p => p.2)

/-- Model of Python dict assignment `d[k] = v`: overwrite in place if the
key is present, append otherwise. -/
def dictSet (r : Record) (k : String) (v : JValue) : Record :=
  if r.any (fun p => p.1 = k) then
    r.map (fun p => if p.1 = k then (k, v) else p)
  else
    r ++ [(k, v)]

/-- Model of Python `d.pop(k, None)`: remove the key if present. -/
def dictPop (r : Record) (k : String) : Record :=
  r.filter (fun p => p.1 ≠ k)

/-- JSON whitespace characters skipped by Python's `json.loads`. -/
def jsonWs (c : Char) : Bool :=
  c = ' ' || c = '\t' || c = '\n' || c = '\r'

/-- Whitespace for the `\s` class of Python's `re` module and for
`str.strip()` (ASCII range, which is all the model needs). -/
def pyWs (c : Char) : Bool :=
  c = ' ' || c = '\t' || c = '\n' || c = '\r' || c = '\x0b' || c = '\x0c'

/-- Drop leading JSON whitespace. -/
def skipWs : List Char → List Char
  | [] => []
  | c :: cs => if jsonWs c then skipWs cs else c :: cs

/-- Value of a hexadecimal digit, used for `\uXXXX` escapes. -/
def hexDigit (c : Char) : Option Nat :=
  if '0' ≤ c ∧ c ≤ '9' then some (c.toNat - '0'.toNat)
  else if 'a' ≤ c ∧ c ≤ 'f' then some (c.toNat - 'a'.toNat + 10)
  else if 'A' ≤ c ∧ c ≤ 'F' then some (c.toNat - 'A'.toNat + 10)
  else none

/-- Body of a JSON string literal (after the opening quote), with the
escape sequences accepted by Python's strict `json.loads`; raw control
characters are rejected. -/
def parseStringBody (fuel : Nat) (cs : List Char) (acc : List Char) :
    Option (String × List Char) :=
  match fuel with
  | 0 => none
  | fuel + 1 =>
    match cs with
    | [] => none
    | '"' :: rest => some (String.mk acc.reverse, rest)
    | '\\' :: rest =>
      match rest with
      | '"' :: r => parseStringBody fuel r ('"' :: acc)
      | '\\' :: r => parseStringBody fuel r ('\\' :: acc)
      | '/' :: r => parseStringBody fuel r ('/' :: acc)
      | 'b' :: r => parseStringBody fuel r ('\x08' :: acc)
      | 'f' :: r => parseStringBody fuel r ('\x0c' :: acc)
      | 'n' :: r => parseStringBody fuel r ('\n' :: acc)
      | 'r' :: r => parseStringBody fuel r ('\r' :: acc)
      | 't' :: r => parseStringBody fuel r ('\t' :: acc)
      | 'u' :: h1 :: h2 :: h3 :: h4 :: r =>
        match hexDigit h1, hexDigit h2, hexDigit h3, hexDigit h4 with
        | some a, some b, some c, some d =>
          parseStringBody fuel r (Char.ofNat (((a * 16 + b) * 16 + c) * 16 + d) :: acc)
        | _, _, _, _ => none
      | _ => none
    | c :: rest =>
      if c.toNat < 0x20 then none else parseStringBody fuel rest (c :: acc)

/-- Longest prefix of decimal digits together with the remainder. -/
def spanDigits : List Char → List Char × List Char
  | [] => ([], [])
  | c :: cs =>
    if c.isDigit then
      let (ds, rest) := spanDigits cs
      (c :: ds, rest)
    else ([], c :: cs)

/-- Optional fraction and exponent parts of a JSON number, appended to
the integer part already consumed. -/
def parseNumberTail (intPart : List Char) (cs : List Char) :
    Option (String × List Char) :=
  let fracRes : Option (List Char × List Char) :=
    match cs with
    | '.' :: r =>
      let (ds, rest) := spanDigits r
      if ds.isEmpty then none else some ('.' :: ds, rest)
    | _ => some ([], cs)
  match fracRes with
  | none => none
  | some (fp, cs2) =>
    match cs2 with
    | e :: r =>
      if e = 'e' ∨ e = 'E' then
        let (sgn, r1) :=
          match r with
          | s :: r2 => if s = '+' ∨ s = '-' then ([s], r2) else ([], r)
          | [] => ([], r)
        let (ds, rest) := spanDigits r1
        if ds.isEmpty then none
        else some (String.mk (intPart ++ fp ++ e :: sgn ++ ds), rest)
      else some (String.mk (intPart ++ fp), cs2)
    | [] => some (String.mk (intPart ++ fp), cs2)

/-- Model of a JSON number per the strict grammar Python accepts:
`-?(0|[1-9][0-9]*)(\.[0-9]+)?([eE][+-]?[0-9]+)?`. -/
def parseNumber (cs : List Char) : Option (String × List Char) :=
  let (sign, cs1) :=
    match cs with
    | '-' :: r => (['-'], r)
    | _ => ([], cs)
  match cs1 with
  | '0' :: r => parseNumberTail (sign ++ ['0']) r
  | c :: r =>
    if c.isDigit then
      let (ds, rest) := spanDigits r
      parseNumberTail (sign ++ c :: ds) rest
    else none
  | [] => none

mutual

/-- Model of parsing one JSON value at the head of the input (leading
whitespace already skipped).  Returns the value and the remaining
characters, or `none` where Python raises `JSONDecodeError`. -/
def parseValue (fuel : Nat) (cs : List Char) : Option (JValue × List Char) :=
  match fuel with
  | 0 => none
  | fuel + 1 =>
    match cs with
    | [] => none
    | '"' :: rest =>
      (parseStringBody (rest.length + 1) rest []).map
        (fun p => (JValue.str p.1, p.2))
    | '[' :: rest =>
      match skipWs rest with
      | ']' :: r => some (JValue.arr [], r)
      | r => (parseArrayElems fuel r []).map (fun p => (JValue.arr p.1, p.2))
    | '{' :: rest =>
      match skipWs rest with
      | '}' :: r => some (JValue.obj [], r)
      | r => (parseObjMembers fuel r []).map (fun p => (JValue.obj p.1, p.2))
    | 't' :: 'r' :: 'u' :: 'e' :: rest => some (JValue.bool true, rest)
    | 'f' :: 'a' :: 'l' :: 's' :: 'e' :: rest => some (JValue.bool false, rest)
    | 'n' :: 'u' :: 'l' :: 'l' :: rest => some (JValue.null, rest)
    | _ =>
      (parseNumber cs).map (fun p => (JValue.num p.1, p.2))

/-- Elements of a JSON array after the opening bracket (non-empty case). -/
def parseArrayElems (fuel : Nat) (cs : List Char) (acc : List JValue) :
    Option (List JValue × List Char) :=
  match fuel with
  | 0 => none
  | fuel + 1 =>
    match parseValue fuel cs with
    | none => none
    | some (v, rest) =>
      match skipWs rest with
      | ',' :: r => parseArrayElems fuel (skipWs r) (v :: acc)
      | ']' :: r => some ((v :: acc).reverse, r)
      | _ => none

/-- Members of a JSON object after the opening brace (non-empty case).
Duplicate keys collapse with the last occurrence winning, as in the
Python dict the decoder builds. -/
def parseObjMembers (fuel : Nat) (cs : List Char) (acc : Record) :
    Option (Record × List Char) :=
  match fuel with
  | 0 => none
  | fuel + 1 =>
    match cs with
    | '"' :: rest =>
      match parseStringBody (rest.length + 1) rest [] with
      | none => none
      | some (key, afterKey) =>
        match skipWs afterKey with
        | ':' :: r =>
          match parseValue fuel (skipWs r) with
          | none => none
          | some (v, afterVal) =>
            let acc1 := dictSet acc key v
            match skipWs afterVal with
            | ',' :: r2 =>
              match skipWs r2 with
              | '"' :: r3 => parseObjMembers fuel ('"' :: r3) acc1
              | _ => none
            | '}' :: r2 => some (acc1, r2)
            | _ => none
        | _ => none
    | _ => none

end

/-- Concrete model of Python's `json.loads`: skip leading whitespace,
parse one value, require only whitespace to follow; `none` models a
raised `JSONDecodeError`. -/
def json_loads (s : String) : Option JValue :=
  let cs := skipWs s.toList
  match parseValue (cs.length + 1) cs with
  | some (v, rest) => if skipWs rest = [] then some v else none
  | none => none

/-- Check whether the remaining text closes a code fence, i.e. matches
the regex tail of the source pattern (a greedy whitespace run followed
by a triple backtick; a backtick is not whitespace, so the only viable
whitespace run is the maximal one). -/
def closesFence (cs : List Char) : Bool :=
  ['`', '`', '`'].isPrefixOf (cs.dropWhile pyWs)

/-- Lazy capture group of the code-fence regex: the shortest prefix
whose remainder closes the fence, or `none` when no split matches. -/
def lazyCapture : List Char → Option (List Char)
  | [] => none
  | c :: rest =>
    if closesFence (c :: rest) then some []
    else (lazyCapture rest).map (fun a => c :: a)

/-- Continuation of a fence match after an opening triple backtick:
consume an optional literal `json` tag, then the greedy whitespace run,
then the lazy capture. -/
def fenceAttempt (cs : List Char) : Option (List Char) :=
  let cs1 :=
    match cs with
    | 'j' :: 's' :: 'o' :: 'n' :: r => r
    | _ => cs
  lazyCapture (cs1.dropWhile pyWs)

/-- Leftmost search for the fenced-block pattern: try each occurrence of
an opening triple backtick in order, taking the first that also closes. -/
def searchFence : List Char → Option (List Char)
  | [] => none
  | '`' :: '`' :: '`' :: afterOpen =>
    (match fenceAttempt afterOpen with
     | some cap => some cap
     | none => searchFence ('`' :: '`' :: afterOpen))
  | _ :: rest => searchFence rest

/-- Model of strategy 2 of the Response Parser: the capture of
searching the source's fenced-code-block regular expression (with the
DOTALL flag) in the response, when it matches. -/
def strategy_code_block (s : String) : Option String :=
  (searchFence s.toList).map String.mk

/-- Model of a greedy DOTALL bracketed-span search (strategy 3): the
match runs from the first opening bracket to the last closing bracket,
provided the latter comes strictly after the former. -/
def bracketSpan (openC closeC : Char) (s : String) : Option String :=
  let cs := s.toList
  match cs.findIdx? (fun c => c = openC), cs.reverse.findIdx? (fun c => c = closeC) with
  | some i, some jr =>
    let j := cs.length - 1 - jr
    if i < j then some (String.mk ((cs.drop i).take (j - i + 1))) else none
  | _, _ => none

/-- Strategy 3 of `_parse_ai_response`: the first JSON-array-looking
span of the response. -/
def strategy_array_span (s : String) : Option String :=
  bracketSpan '[' ']' s

/-- Strategy 3 of `_parse_comparison_response`: the first
JSON-object-looking span of the response. -/
def strategy_object_span (s : String) : Option String :=
  bracketSpan '{' '}' s

/-- Model of Python `str.strip()` (ASCII whitespace). -/
def pyStrip (s : String) : String :=
  String.mk (((s.toList.dropWhile pyWs).reverse.dropWhile pyWs).reverse)

/-- Strategy 4 of `_parse_ai_response`: strip the response, peel one
layer of fence markers and an optional leading `json` tag, and return
the cleaned text to be parsed once more. -/
def strategy_cleaned (s : String) : String :=
  let cs0 := (pyStrip s).toList
  let fence := ['`', '`', '`']
  if fence.isPrefixOf cs0 && fence.isSuffixOf cs0 then
    let cs1 := (pyStrip (String.mk ((cs0.drop 3).take (cs0.length - 6)))).toList
    if ['j', 's', 'o', 'n'].isPrefixOf cs1 then
      pyStrip (String.mk (cs1.drop 4))
    else String.mk cs1
  else String.mk cs0

/-- Candidate texts that `_parse_ai_response` hands to `json.loads`, in
strategy order. -/
def arr_strategies (s : String) : List String :=
  [s] ++ (strategy_code_block s).toList ++ (strategy_array_span s).toList
    ++ [strategy_cleaned s]

/-- Candidate texts that `_parse_comparison_response` hands to
`json.loads`, in strategy order (it has no cleaning strategy). -/
def obj_strategies (s : String) : List String :=
  [s] ++ (strategy_code_block s).toList ++ (strategy_object_span s).toList

/-- Check that every strategy of `_parse_ai_response` fails on the text. -/
def all_strategies_fail_arr (s : String) : Bool :=
  (arr_strategies s).all (fun t => (json_loads t).isNone)

/-- Check that every strategy of `_parse_comparison_response` fails. -/
def all_strategies_fail_obj (s : String) : Bool :=
  (obj_strategies s).all (fun t => (json_loads t).isNone)

/-- Embedding of `AIAnalyzer._parse_ai_response` (array mode): try the
strategies in order, each only on failure of the previous; if all fail,
return the empty list. -/
def parse_ai_response (s : String) : JValue :=
  match json_loads s with
  | some v => v
  | none =>
    match (strategy_code_block s).bind json_loads with
    | some v => v
    | none =>
      match (strategy_array_span s).bind json_loads with
      | some v => v
      | none =>
        match json_loads (strategy_cleaned s) with
        | some v => v
        | none => JValue.arr []

/-- Default all-zero comparison result returned by
`AIAnalyzer._parse_comparison_response` when every strategy fails. -/
def default_comparison_result : JValue :=
  JValue.obj
    [("new_creditors", JValue.arr []),
     ("removed_creditors", JValue.arr []),
     ("modified_creditors", JValue.arr []),
     ("unchanged_creditors", JValue.arr []),
     ("summary", JValue.obj
       [("total_old", JValue.num "0"),
        ("total_new", JValue.num "0"),
        ("new_count", JValue.num "0"),
        ("removed_count", JValue.num "0"),
        ("modified_count", JValue.num "0"),
        ("unchanged_count", JValue.num "0")])]

/-- Embedding of `AIAnalyzer._parse_comparison_response` (object mode):
direct parse, then fenced block, then object span; if all fail, return
the default all-zero comparison result. -/
def parse_comparison_response (s : String) : JValue :=
  match json_loads s with
  | some v => v
  | none =>
    match (strategy_code_block s).bind json_loads with
    | some v => v
    | none =>
      match (strategy_object_span s).bind json_loads with
      | some v => v
      | none => default_comparison_result

/-- Partial view of the generative service as used by the Consolidator:
one call per `_consolidate_batch` invocation, indexed by a running call
counter and given the prompted batch.  `Except.error` models a thrown
transport/service exception; `Except.ok rs` models a response whose
content the array-mode Response Parser turns into the record list `rs`
(the empty list covering both an empty JSON array and total parse
failure).  This view covers exactly the behaviors in which every parse
outcome is a record array; the source's parser can also return a truthy
non-array value (a dict or string content), which `_consolidate_batch`
passes through as is — those behaviors, under which the fold's list
concatenation can raise into the outer handler, are modelled at full
content-string granularity by `consolidate_batch_src`,
`consolidate_loop_src` and `consolidate_creditors_src` below.  The
theorems stated over this view concern properties that the extra
behaviors cannot strengthen into view-only artifacts: their hypotheses
confine the service to outcomes on which the two models agree
(`consolidate_batch_fallback`, `consolidate_len_le_of_nonexpansive`),
or their conclusion also holds on the abort path, where the source
returns the stripped original list
(`consolidate_nonempty_of_nonempty`). -/
abbrev ConsOracle := Nat → List Record → Except Unit (List Record)

/-- Strip the page-provenance field from every record, the model of the
source's `for creditor in creditors: creditor.pop('_source_pages', None)`. -/
def strip_source_pages (rs : List Record) : List Record :=
  rs.map (fun r => dictPop r "_source_pages")

/-- Embedding of `AIAnalyzer._consolidate_batch`: one service call; if
the parsed result is non-empty it is returned as is; on an empty parsed
result or any exception, the original batch is returned with the
provenance field removed.  The returned `Nat` is the updated number of
service calls issued. -/
def consolidate_batch (oracle : ConsOracle) (k : Nat) (creditors : List Record) :
    List Record × Nat :=
  match oracle k creditors with
  | .error _ => (strip_source_pages creditors, k + 1)
  | .ok consolidated =>
    if consolidated.length > 0 then (consolidated, k + 1)
    else (strip_source_pages creditors, k + 1)

/-- One iteration of the batch loop of
`AIAnalyzer._consolidate_creditors_with_ai`: consolidate the current
batch (the first 100 remaining records); if the running total is empty
(the first batch) the batch's output becomes the running total,
otherwise the running total concatenated with the batch's output is
re-consolidated by a further call. -/
def consolidate_step (oracle : ConsOracle) (k : Nat) (remaining acc : List Record) :
    List Record × Nat :=
  if acc.isEmpty then consolidate_batch oracle k (remaining.take 100)
  else
    consolidate_batch oracle (consolidate_batch oracle k (remaining.take 100)).2
      (acc ++ (consolidate_batch oracle k (remaining.take 100)).1)

/-- Embedding of the batch loop of
`AIAnalyzer._consolidate_creditors_with_ai` for large lists: iterate
`consolidate_step` over the remaining records, 100 at a time, in the
original order. -/
def consolidate_loop (oracle : ConsOracle) (k : Nat) (remaining acc : List Record) :
    List Record × Nat :=
  if h : remaining.isEmpty then (acc, k)
  else
    consolidate_loop oracle (consolidate_step oracle k remaining acc).2
      (remaining.drop 100) (consolidate_step oracle k remaining acc).1
termination_by remaining.length
decreasing_by
  simp only [List.length_drop]
  have hne : remaining.length ≠ 0 := by
    intro hz
    exact h (by simpa [List.isEmpty_iff, List.length_eq_zero] using List.length_eq_zero.mp hz)
  omega

/-- Embedding of `AIAnalyzer._consolidate_creditors_with_ai` over the
record-array view of the service: a list of at most 150 records is
consolidated by a single batch call, a larger one by the batch loop.
The source wraps the body in a `try/except` returning the
provenance-stripped input; within this view no exception reaches that
handler (`_consolidate_batch` absorbs every service failure), but in
the source a truthy non-array parse result makes the fold's
concatenation raise `TypeError` into it — that reachable path is
modelled by `consolidate_creditors_src` below, whose outer-handler
result is the same stripped original list. -/
def consolidate_creditors_with_ai (oracle : ConsOracle) (k : Nat)
    (creditors : List Record) : List Record × Nat :=
  if creditors.length ≤ 150 then consolidate_batch oracle k creditors
  else consolidate_loop oracle k creditors []

/-- Python truthiness of a JSON number from its lexeme: zero exactly
when every mantissa digit is `0` (sign, dot and exponent aside). -/
def numIsZero (lexeme : String) : Bool :=
  (lexeme.toList.takeWhile (fun c => c != 'e' && c != 'E')).all
    (fun c => c == '0' || c == '-' || c == '.')

/-- Model of Python `len()` on a JSON value: defined on arrays, objects
and strings, a `TypeError` otherwise. -/
def pyLen : JValue → Except Unit Nat
  | .arr xs => .ok xs.length
  | .obj fs => .ok fs.length
  | .str s => .ok s.length
  | _ => .error ()

/-- Model of Python truthiness `bool(x)` on JSON values. -/
def pyTruthy : JValue → Bool
  | .null => false
  | .bool b => b
  | .num lexeme => !(numIsZero lexeme)
  | .str s => s ≠ ""
  | .arr xs => !xs.isEmpty
  | .obj fs => !fs.isEmpty

/-- Model of Python `+` on the values that can reach the fold's
concatenation `consolidated_result + batch_consolidated`: list + list
and str + str concatenate; any other combination raises `TypeError`. -/
def pyAdd : JValue → JValue → Except Unit JValue
  | .arr xs, .arr ys => .ok (.arr (xs ++ ys))
  | .str a, .str b => .ok (.str (a ++ b))
  | _, _ => .error ()

/-- Model of the duck-typed fallback loop `for creditor in creditors:
creditor.pop('_source_pages', None)` of `_consolidate_batch` on an
arbitrary batch value: every element of a list must be a dict, which is
popped (a non-dict element raises `AttributeError`); an empty string or
empty dict iterates zero times; any other value raises. -/
def popLoop : JValue → Except Unit JValue
  | .arr xs =>
    if xs.all (fun x => match x with | .obj _ => true | _ => false) then
      .ok (.arr (xs.map (fun x =>
        match x with
        | .obj fs => .obj (dictPop fs "_source_pages")
        | _ => x)))
    else .error ()
  | .str s => if s = "" then .ok (.str "") else .error ()
  | .obj fs => if fs.isEmpty then .ok (.obj []) else .error ()
  | _ => .error ()

/-- A record list as the Python value it is: a list of dicts. -/
def recordsToJ (rs : List Record) : JValue :=
  .arr (rs.map JValue.obj)

/-- Embedding of `AIAnalyzer._consolidate_batch` at content-string
granularity: `svc` maps the call counter to a thrown exception or the
raw response content, and the batch is the duck-typed Python value
handed in — a record list for initial batches, but possibly a string or
heterogeneous list for fold batches.  The prompt's `len(creditors)` is
evaluated before the call; a truthy parse result with positive `len` is
returned as is (whatever value it is); every other outcome — thrown
call, `TypeError` from `len`, falsy parse — runs the pop fallback on
the batch, whose own failure escapes `_consolidate_batch` as an
exception (the handler re-runs the same loop and re-raises). -/
def consolidate_batch_src (svc : Nat → Except Unit String) (k : Nat)
    (creditors : JValue) : Except Unit JValue × Nat :=
  match pyLen creditors with
  | .error _ => (popLoop creditors, k)
  | .ok _ =>
    match svc k with
    | .error _ => (popLoop creditors, k + 1)
    | .ok content =>
      let consolidated := parse_ai_response content
      if pyTruthy consolidated then
        match pyLen consolidated with
        | .error _ => (popLoop creditors, k + 1)
        | .ok n =>
          if n > 0 then (.ok consolidated, k + 1)
          else (popLoop creditors, k + 1)
      else (popLoop creditors, k + 1)

/-- Embedding of the batch loop of `_consolidate_creditors_with_ai` at
content-string granularity.  The running total starts as the empty list
and may become any value a batch call returns; an exception from a
batch call or from the fold's concatenation aborts the loop into the
outer handler.  `fuel` is a structural bound on the number of
iterations; any fuel at least the number of remaining records is enough
(each iteration consumes at least one), so the fuel-exhaustion case is
unreachable from the top-level entry point. -/
def consolidate_loop_src (svc : Nat → Except Unit String) :
    Nat → Nat → List Record → JValue → Except Unit JValue × Nat
  | 0, k, _, acc => (.ok acc, k)
  | fuel + 1, k, remaining, acc =>
    if remaining.isEmpty then (.ok acc, k)
    else
      match consolidate_batch_src svc k (recordsToJ (remaining.take 100)) with
      | (.error _, k1) => (.error (), k1)
      | (.ok b, k1) =>
        if pyTruthy acc then
          match pyAdd acc b with
          | .error _ => (.error (), k1)
          | .ok combined =>
            match consolidate_batch_src svc k1 combined with
            | (.error _, k2) => (.error (), k2)
            | (.ok merged, k2) =>
              consolidate_loop_src svc fuel k2 (remaining.drop 100) merged
        else consolidate_loop_src svc fuel k1 (remaining.drop 100) b

/-- Embedding of `AIAnalyzer._consolidate_creditors_with_ai` at
content-string granularity: a direct batch call for at most 150
records, the batch loop otherwise; any exception escaping either is
caught by the outer handler, which strips the provenance field from the
original records and returns them.  The second component counts the
service calls issued. -/
def consolidate_creditors_src (svc : Nat → Except Unit String)
    (creditors : List Record) : JValue × Nat :=
  if creditors.length ≤ 150 then
    match consolidate_batch_src svc 0 (recordsToJ creditors) with
    | (.error _, k) => (recordsToJ (strip_source_pages creditors), k)
    | (.ok v, k) => (v, k)
  else
    match consolidate_loop_src svc creditors.length 0 creditors (.arr []) with
    | (.error _, k) => (recordsToJ (strip_source_pages creditors), k)
    | (.ok v, k) => (v, k)

/-- Model of a `Chunk` produced by the chunking collaborator
(`PDFProcessor.extract_text_in_chunks`): text plus 1-based page range
and the document's page count. -/
structure Chunk where
  text : String
  start_page : Nat
  end_page : Nat
  total_pages : Nat

/-- Oracle modelling the generative service as used per chunk by
`extract_creditors_from_chunks` and for the single calls of
`extract_creditors` / `compare_creditors_with_ai`: a thrown exception
or the raw response content string (extracted from the first choice per
the §6 call contract; an absent content defaults to the empty string in
the source). -/
abbrev ExtOracle := Nat → Except Unit String

/-- Page-range provenance string `f"{start_page}-{end_page}"`. -/
def page_range (c : Chunk) : String :=
  toString c.start_page ++ "-" ++ toString c.end_page

/-- Model of the source's tagging loop over a parsed chunk response
(`for creditor in chunk_creditors: creditor['_source_pages'] = ...`
followed by `all_creditors.extend(chunk_creditors)`), which is
duck-typed on the parse result: an array of objects is tagged and
accumulated; an empty string or empty object iterates zero times and
contributes nothing; any other value raises a `TypeError` (modelled as
`Except.error`), aborting the whole run. -/
def tag_records (c : Chunk) (v : JValue) : Except Unit (List Record) :=
  match v with
  | .arr xs =>
    if xs.all (fun x => match x with | .obj _ => true | _ => false) then
      .ok (xs.map (fun x =>
        match x with
        | .obj fs => dictSet fs "_source_pages" (.str (page_range c))
        | _ => []))
    else .error ()
  | .str s => if s.isEmpty then .ok [] else .error ()
  | .obj fs => if fs.isEmpty then .ok [] else .error ()
  | _ => .error ()

/-- One chunk's processing inside `extract_creditors_from_chunks`: one
service call, array-mode parse, tagging with the chunk's page range. -/
def chunk_records (svc : ExtOracle) (i : Nat) (c : Chunk) : Except Unit (List Record) :=
  match svc i with
  | .error _ => .error ()
  | .ok content => tag_records c (parse_ai_response content)

/-- The chunk loop of `extract_creditors_from_chunks`: for the chunk at
index `i` of `total`, record the progress-callback invocation
`(i, total, start_page, end_page)`, then process the chunk; a failure
aborts the loop (the partial callback trace is kept, as the callbacks
already happened).  Returns the callback trace and the accumulated
record list. -/
def run_chunks (svc : ExtOracle) (total : Nat) : Nat → List Chunk →
    List (Nat × Nat × Nat × Nat) × Except Unit (List Record)
  | _, [] => ([], .ok [])
  | i, c :: cs =>
    let entry := (i, total, c.start_page, c.end_page)
    match chunk_records svc i c with
    | .error _ => ([entry], .error ())
    | .ok recs =>
      let rest := run_chunks svc total (i + 1) cs
      (entry :: rest.1, rest.2.map (fun l => recs ++ l))

/-- Embedding of `AIAnalyzer.extract_creditors_from_chunks`: run the
chunk loop; if the pre-consolidation count is positive, delegate to the
Consolidator (whose calls are modelled by `oracle`) and return the
consolidated list with the pre-consolidation count, else return the
empty accumulation; any exception in the loop is re-raised wrapped.
The first component is the progress-callback trace. -/
def extract_creditors_from_chunks (svc : ExtOracle) (oracle : ConsOracle)
    (chunks : List Chunk) :
    List (Nat × Nat × Nat × Nat) × Except Unit (List Record × Nat) :=
  ((run_chunks svc chunks.length 0 chunks).1,
   match (run_chunks svc chunks.length 0 chunks).2 with
   | .error _ => .error ()
   | .ok all =>
     if all.length > 0 then
       .ok ((consolidate_creditors_with_ai oracle 0 all).1, all.length)
     else .ok (all, all.length))

/-- Embedding of `AIAnalyzer.extract_creditors` (the spec's
`extractFromText`): fails when the service call throws or the response
content is empty; otherwise parses in array mode and returns the parsed
value with its length (any exception, including a `TypeError` from
`len`, is re-raised wrapped). -/
def extract_creditors (svc : Except Unit String) : Except Unit (JValue × Nat) :=
  match svc with
  | .error _ => .error ()
  | .ok content =>
    if content = "" then .error ()
    else
      let creditors := parse_ai_response content
      (pyLen creditors).map (fun n => (creditors, n))

/-- Modelled from the spec (§4.2): the claimed shape of
`extractFromChunks` in claim C4, which "processes each chunk by
invoking the same extractFromText operation" — so a chunk whose
response content is empty makes the whole run fail, as
`extract_creditors` raises there.  This definition follows the spec's
words; the source embedding is `extract_creditors_from_chunks`, which
inlines the call without the empty-content check. -/
def extract_from_chunks_spec (svc : ExtOracle) : Nat → List Chunk →
    Except Unit (List Record)
  | _, [] => .ok []
  | i, c :: cs =>
    match extract_creditors (svc i) with
    | .error _ => .error ()
    | .ok (v, _) =>
      match tag_records c v with
      | .error _ => .error ()
      | .ok recs => (extract_from_chunks_spec svc (i + 1) cs).map (fun rest => recs ++ rest)

/-- Embedding of `AIAnalyzer.compare_creditors_with_ai`: one service
call whose prompt embeds the two record lists; fails when the call
throws or the content is empty; otherwise returns the object-mode parse
of the content, with no further validation. -/
def compare_creditors_with_ai (old_creditors new_creditors : List Record)
    (svc : Except Unit String) : Except Unit JValue :=
  match svc with
  | .error _ => .error ()
  | .ok content =>
    if content = "" then .error ()
    else
      let _ := (old_creditors, new_creditors)
      .ok (parse_comparison_response content)

/-- Bucket of a comparison result under a classification key, read the
way consumers of the result do: missing or non-array buckets read as
empty. -/
def bucketArr (result : JValue) (key : String) : List JValue :=
  match result with
  | .obj fs =>
    match dictGet fs key with
    | some (.arr xs) => xs
    | _ => []
  | _ => []

/-- Membership of a record in the modified bucket: some entry's
`creditor` field equals the record. -/
def in_modified (result : JValue) (r : Record) : Bool :=
  (bucketArr result "modified_creditors").any (fun e =>
    match e with
    | .obj fs =>
      match dictGet fs "creditor" with
      | some v => jeq v (.obj r)
      | none => false
    | _ => false)

/-- Number of the four classification buckets containing the record. -/
def classification_count (result : JValue) (r : Record) : Nat :=
  (if (bucketArr result "new_creditors").any (fun e => jeq e (.obj r)) then 1 else 0)
  + (if (bucketArr result "removed_creditors").any (fun e => jeq e (.obj r)) then 1 else 0)
  + (if (bucketArr result "unchanged_creditors").any (fun e => jeq e (.obj r)) then 1 else 0)
  + (if in_modified result r then 1 else 0)

/-- Check that a JSON value is the number `n`. -/
def numIs (v : JValue) (n : Nat) : Bool :=
  jeq v (.num (toString n))

/-- Check that the summary counts of a comparison result match the
bucket sizes. -/
def summary_counts_match (result : JValue) : Bool :=
  match result with
  | .obj fs =>
    match dictGet fs "summary" with
    | some (.obj sm) =>
      (match dictGet sm "new_count" with
       | some v => numIs v (bucketArr result "new_creditors").length
       | none => false)
      && (match dictGet sm "removed_count" with
          | some v => numIs v (bucketArr result "removed_creditors").length
          | none => false)
      && (match dictGet sm "modified_count" with
          | some v => numIs v (bucketArr result "modified_creditors").length
          | none => false)
      && (match dictGet sm "unchanged_count" with
          | some v => numIs v (bucketArr result "unchanged_creditors").length
          | none => false)
    | _ => false
  | _ => false

/-- Formalisation of the partition property claimed of the Comparator
(§3 invariant and §8): every input record appears in exactly one of the
four classification buckets, and the summary counts match the bucket
sizes. -/
def comparison_partition_ok (old_creditors new_creditors : List Record)
    (result : JValue) : Bool :=
  (old_creditors ++ new_creditors).all
    (fun r => classification_count result r == 1)
  && summary_counts_match result

example : parse_ai_response "[1]" = JValue.arr [JValue.num "1"] := rfl
example : parse_ai_response "```json\n[1]\n```" = JValue.arr [JValue.num "1"] := rfl
example : parse_ai_response "Result: [1, 2] ok" =
    JValue.arr [JValue.num "1", JValue.num "2"] := rfl
example : parse_ai_response "" = JValue.arr [] := rfl
example : parse_ai_response "no json here" = JValue.arr [] := rfl
example : parse_comparison_response "x \x7b\"a\": []\x7d y" =
    JValue.obj [("a", JValue.arr [])] := rfl
example : parse_comparison_response "garbage" = default_comparison_result := rfl
example : strategy_code_block "a ```json  [1] ``` b" = some "[1]" := rfl
example : strategy_code_block "nope" = none := rfl
example : strategy_cleaned "```json\n[1]\n```" = "[1]" := rfl

example : json_loads "" = none := rfl
example : json_loads "5" = some (JValue.num "5") := rfl
example : json_loads "[]" = some (JValue.arr []) := rfl
example : json_loads "{}" = some (JValue.obj []) := rfl
example : json_loads "[1, 2]" = some (JValue.arr [JValue.num "1", JValue.num "2"]) := rfl
example : json_loads " \x7b\"a\": \"b\"\x7d " = some (JValue.obj [("a", JValue.str "b")]) := rfl
example : json_loads "[\x7b\"nome\": null\x7d]" =
    some (JValue.arr [JValue.obj [("nome", JValue.null)]]) := rfl
example : json_loads "junk" = none := rfl
example : json_loads "[1" = none := rfl
example : json_loads "1 2" = none := rfl
example : json_loads "-1.5e+10" = some (JValue.num "-1.5e+10") := rfl
example : json_loads "01" = none := rfl

example :
    (extract_creditors_from_chunks (fun _ => Except.ok "") (fun _ _ => Except.error ())
      [⟨"text", 1, 10, 10⟩]).2 = Except.ok ([], 0) := rfl
example :
    extract_from_chunks_spec (fun _ => Except.ok "") 0 [⟨"text", 1, 10, 10⟩]
      = Except.error () := rfl
example :
    (consolidate_batch (fun _ _ => Except.ok []) 0
      [[("nome", JValue.str "A"), ("_source_pages", JValue.str "1-2")]]).1
      = [[("nome", JValue.str "A")]] := rfl
example :
    (consolidate_creditors_with_ai
      (fun _ _ => Except.ok [[("nome", JValue.str "A")], [("nome", JValue.str "B")]])
      0 [[("nome", JValue.str "A")]]).1.length = 2 := rfl
example :
    (extract_creditors_from_chunks
      (fun i => if i = 0 then Except.ok "5" else Except.ok "[]")
      (fun _ _ => Except.error ()) [⟨"a", 1, 20, 40⟩, ⟨"b", 21, 40, 40⟩]).1
      = [(0, 2, 1, 20)] := rfl
example :
    (extract_creditors_from_chunks (fun _ => Except.ok "[\x7b\"nome\": \"A\"\x7d]")
      (fun _ _ => Except.error ()) [⟨"a", 1, 20, 40⟩]).2
      = Except.ok ([[("nome", JValue.str "A")]], 1) := rfl

example :
    (consolidate_creditors_src (fun _ => Except.ok "\"abc\"")
      [[("nome", JValue.str "A")]]).1 = JValue.str "abc" := rfl
example :
    (consolidate_creditors_src (fun _ => Except.error ())
      [[("nome", JValue.str "A"), ("_source_pages", JValue.str "1-2")]])
      = (recordsToJ [[("nome", JValue.str "A")]], 1) := rfl

/-! Helper lemmas about the dictionary model. -/

theorem dictGet_cons (p : String × JValue) (t : Record) (key : String) :
    dictGet (p :: t) key = if p.1 = key then some p.2 else dictGet t key := by
  by_cases hp : p.1 = key <;> simp [dictGet, List.find?, hp]

theorem dictPop_cons (p : String × JValue) (t : Record) (k : String) :
    dictPop (p :: t) k = if p.1 = k then dictPop t k else p :: dictPop t k := by
  by_cases hp : p.1 = k <;> simp [dictPop, List.filter_cons, hp]

theorem dictGet_dictPop_same (r : Record) (k : String) :
    dictGet (dictPop r k) k = none := by
  induction r with
  | nil => rfl
  | cons p t ih =>
    rw [dictPop_cons]
    by_cases hp : p.1 = k
    · rw [if_pos hp]; exact ih
    · rw [if_neg hp, dictGet_cons, if_neg hp]; exact ih

theorem dictGet_dictPop_ne (r : Record) (k key : String) (h : key ≠ k) :
    dictGet (dictPop r k) key = dictGet r key := by
  induction r with
  | nil => rfl
  | cons p t ih =>
    rw [dictPop_cons]
    by_cases hp : p.1 = k
    · rw [if_pos hp, dictGet_cons, if_neg (fun e => h (hp.symm.trans e).symm)]
      exact ih
    · rw [if_neg hp, dictGet_cons, dictGet_cons]
      by_cases hk2 : p.1 = key
      · rw [if_pos hk2, if_pos hk2]
      · rw [if_neg hk2, if_neg hk2]; exact ih

theorem dictGet_map_overwrite (r : Record) (k : String) (v : JValue) :
    dictGet (r.map (fun p => if p.1 = k then (k, v) else p)) k
      = if r.any (fun p => p.1 = k) then some v else none := by
  induction r with
  | nil => rfl
  | cons p t ih =>
    by_cases hp : p.1 = k
    · simp [dictGet_cons, List.any_cons, hp]
    · have hd : decide (p.1 = k) = false := decide_eq_false hp
      rw [List.map_cons, if_neg hp, dictGet_cons, if_neg hp, List.any_cons, hd,
        Bool.false_or]
      exact ih

theorem dictGet_append_single (r : Record) (k : String) (v : JValue)
    (h : r.any (fun p => p.1 = k) = false) :
    dictGet (r ++ [(k, v)]) k = some v := by
  induction r with
  | nil => simp [dictGet, List.find?]
  | cons p t ih =>
    simp only [List.any_cons, Bool.or_eq_false_iff, decide_eq_false_iff_not] at h
    rw [List.cons_append, dictGet_cons, if_neg h.1]
    exact ih h.2

theorem dictGet_dictSet_same (r : Record) (k : String) (v : JValue) :
    dictGet (dictSet r k v) k = some v := by
  unfold dictSet
  by_cases ha : r.any (fun p => p.1 = k)
  · rw [if_pos ha, dictGet_map_overwrite, if_pos ha]
  · rw [if_neg ha, dictGet_append_single]
    exact Bool.of_not_eq_true ha

/-! Helper lemmas about `consolidate_batch` and the batch loop. -/

theorem strip_source_pages_length (rs : List Record) :
    (strip_source_pages rs).length = rs.length := by
  simp [strip_source_pages]

theorem consolidate_batch_calls (oracle : ConsOracle) (k : Nat)
    (creditors : List Record) :
    (consolidate_batch oracle k creditors).2 = k + 1 := by
  unfold consolidate_batch
  cases oracle k creditors with
  | error e => rfl
  | ok rs =>
    dsimp only
    split <;> rfl

theorem consolidate_batch_ne_nil (oracle : ConsOracle) (k : Nat)
    (creditors : List Record) (h : creditors ≠ []) :
    (consolidate_batch oracle k creditors).1 ≠ [] := by
  unfold consolidate_batch
  cases oracle k creditors with
  | error e => simpa [strip_source_pages] using h
  | ok rs =>
    dsimp only
    split
    · next hpos => exact List.length_pos.mp hpos
    · simpa [strip_source_pages] using h

theorem consolidate_batch_len_le (oracle : ConsOracle)
    (hor : ∀ j b rs, oracle j b = Except.ok rs → rs.length ≤ b.length)
    (k : Nat) (creditors : List Record) :
    (consolidate_batch oracle k creditors).1.length ≤ creditors.length := by
  unfold consolidate_batch
  cases h : oracle k creditors with
  | error e => simp [strip_source_pages]
  | ok rs =>
    dsimp only
    split
    · exact hor k creditors rs h
    · simp [strip_source_pages]

theorem consolidate_loop_nil (oracle : ConsOracle) (k : Nat) (acc : List Record) :
    consolidate_loop oracle k [] acc = (acc, k) := by
  rw [consolidate_loop]
  rfl

theorem consolidate_step_calls (oracle : ConsOracle) (k : Nat)
    (remaining acc : List Record) :
    (consolidate_step oracle k remaining acc).2
      = if acc.isEmpty then k + 1 else k + 2 := by
  unfold consolidate_step
  by_cases ha : acc.isEmpty
  · rw [if_pos ha, if_pos ha, consolidate_batch_calls]
  · rw [if_neg ha, if_neg ha, consolidate_batch_calls, consolidate_batch_calls]

theorem consolidate_step_ne_nil (oracle : ConsOracle) (k : Nat)
    (remaining acc : List Record) (h : remaining ≠ []) :
    (consolidate_step oracle k remaining acc).1 ≠ [] := by
  have htake : remaining.take 100 ≠ [] := by
    cases remaining with
    | nil => exact absurd rfl h
    | cons a t => simp [List.take]
  unfold consolidate_step
  by_cases ha : acc.isEmpty
  · rw [if_pos ha]
    exact consolidate_batch_ne_nil _ _ _ htake
  · rw [if_neg ha]
    apply consolidate_batch_ne_nil
    have hacc : acc ≠ [] := by simpa [List.isEmpty_iff] using ha
    exact fun he => hacc (List.append_eq_nil.mp he).1

theorem consolidate_step_len_le (oracle : ConsOracle)
    (hor : ∀ j b rs, oracle j b = Except.ok rs → rs.length ≤ b.length)
    (k : Nat) (remaining acc : List Record) :
    (consolidate_step oracle k remaining acc).1.length
      ≤ acc.length + (remaining.take 100).length := by
  unfold consolidate_step
  by_cases ha : acc.isEmpty
  · rw [if_pos ha]
    exact le_trans (consolidate_batch_len_le oracle hor _ _) (Nat.le_add_left _ _)
  · rw [if_neg ha]
    have h1 := consolidate_batch_len_le oracle hor
      (consolidate_batch oracle k (remaining.take 100)).2
      (acc ++ (consolidate_batch oracle k (remaining.take 100)).1)
    have h2 := consolidate_batch_len_le oracle hor k (remaining.take 100)
    simp only [List.length_append] at h1
    omega

theorem consolidate_loop_calls (oracle : ConsOracle) :
    ∀ (n : Nat) (remaining acc : List Record) (k : Nat),
      remaining.length ≤ n → remaining ≠ [] →
      (consolidate_loop oracle k remaining acc).2
        = if acc.isEmpty then k + 2 * ((remaining.length + 99) / 100) - 1
          else k + 2 * ((remaining.length + 99) / 100) := by
  intro n
  induction n with
  | zero =>
    intro remaining acc k hle hne
    cases remaining with
    | nil => exact absurd rfl hne
    | cons a t => simp at hle
  | succ n ih =>
    intro remaining acc k hle hne
    have hie : remaining.isEmpty = false := by
      cases remaining with
      | nil => exact absurd rfl hne
      | cons a t => rfl
    rw [consolidate_loop, dif_neg (by simp [hie])]
    by_cases hd : remaining.drop 100 = []
    · rw [hd, consolidate_loop_nil, consolidate_step_calls]
      have hlen : remaining.length ≤ 100 := List.drop_eq_nil_iff.mp hd
      have hlen1 : 1 ≤ remaining.length := List.length_pos.mpr hne
      have hceil : (remaining.length + 99) / 100 = 1 := by omega
      by_cases ha : acc.isEmpty
      · rw [if_pos ha, if_pos ha, hceil]
        omega
      · rw [if_neg ha, if_neg ha, hceil]
    · have hlen : 100 < remaining.length := by
        by_contra hc
        exact hd (List.drop_eq_nil_iff.mpr (by omega))
      have hstep_ne : (consolidate_step oracle k remaining acc).1 ≠ [] :=
        consolidate_step_ne_nil oracle k remaining acc hne
      have hstep2 : (consolidate_step oracle k remaining acc).1.isEmpty = false := by
        cases hx : (consolidate_step oracle k remaining acc).1 with
        | nil => exact absurd hx hstep_ne
        | cons a t => rfl
      rw [ih (remaining.drop 100) _ _ (by simp only [List.length_drop]; omega) hd,
        hstep2]
      simp only [Bool.false_eq_true, if_false]
      rw [consolidate_step_calls, List.length_drop]
      by_cases ha : acc.isEmpty
      · rw [if_pos ha, if_pos ha]
        omega
      · rw [if_neg ha, if_neg ha]
        omega

theorem consolidate_loop_ne_nil (oracle : ConsOracle) :
    ∀ (n : Nat) (remaining acc : List Record) (k : Nat),
      remaining.length ≤ n → (remaining ≠ [] ∨ acc ≠ []) →
      (consolidate_loop oracle k remaining acc).1 ≠ [] := by
  intro n
  induction n with
  | zero =>
    intro remaining acc k hle hor
    have hrem : remaining = [] := List.eq_nil_of_length_eq_zero (by omega)
    subst hrem
    rw [consolidate_loop_nil]
    rcases hor with h | h
    · exact absurd rfl h
    · exact h
  | succ n ih =>
    intro remaining acc k hle hor
    cases remaining with
    | nil =>
      rw [consolidate_loop_nil]
      rcases hor with h | h
      · exact absurd rfl h
      · exact h
    | cons a t =>
      rw [consolidate_loop, dif_neg (by simp)]
      apply ih _ _ _ (by simp only [List.length_drop] at *; omega)
      exact Or.inr (consolidate_step_ne_nil oracle k (a :: t) acc (by simp))

theorem consolidate_loop_len_le (oracle : ConsOracle)
    (hor : ∀ j b rs, oracle j b = Except.ok rs → rs.length ≤ b.length) :
    ∀ (n : Nat) (remaining acc : List Record) (k : Nat),
      remaining.length ≤ n →
      (consolidate_loop oracle k remaining acc).1.length
        ≤ acc.length + remaining.length := by
  intro n
  induction n with
  | zero =>
    intro remaining acc k hle
    have hrem : remaining = [] := List.eq_nil_of_length_eq_zero (by omega)
    subst hrem
    rw [consolidate_loop_nil]
    simp
  | succ n ih =>
    intro remaining acc k hle
    cases remaining with
    | nil =>
      rw [consolidate_loop_nil]
      simp
    | cons a t =>
      rw [consolidate_loop, dif_neg (by simp)]
      have h1 := consolidate_step_len_le oracle hor k (a :: t) acc
      have h2 := ih ((a :: t).drop 100) (consolidate_step oracle k (a :: t) acc).1
        (consolidate_step oracle k (a :: t) acc).2
        (by simp only [List.length_drop] at *; omega)
      have h3 : ((a :: t).take 100).length + ((a :: t).drop 100).length
          = (a :: t).length := by
        rw [List.length_take, List.length_drop]
        omega
      omega

/-- Call count over the record-array view of the service: one batch
call for at most 150 records, otherwise `ceil(N/100)` initial batch
calls plus one fold call per batch after the first.  This is exact only
within the view: at content-string granularity a truthy non-array parse
can abort the batch loop early (see `consolidate_src_call_count` and
`consolidate_call_count_not_exact`). -/
theorem consolidate_call_count (oracle : ConsOracle) (creditors : List Record) :
    (consolidate_creditors_with_ai oracle 0 creditors).2
      = if creditors.length ≤ 150 then 1
        else 2 * ((creditors.length + 99) / 100) - 1 := by
  unfold consolidate_creditors_with_ai
  by_cases hle : creditors.length ≤ 150
  · rw [if_pos hle, if_pos hle, consolidate_batch_calls]
  · rw [if_neg hle, if_neg hle]
    have hne : creditors ≠ [] := by
      intro he
      rw [he] at hle
      exact hle (by simp)
    rw [consolidate_loop_calls oracle creditors.length creditors [] 0 le_rfl hne]
    simp

/-- Claim C2: for every non-empty batch, when the service's
consolidation response parses to an empty result or the call raises,
`_consolidate_batch` returns the original batch — same number of
records, the `_source_pages` provenance field removed from each record,
and every other field unchanged. -/
theorem consolidate_batch_fallback (oracle : ConsOracle) (k : Nat)
    (creditors : List Record) (hne : creditors ≠ [])
    (hsvc : oracle k creditors = Except.ok [] ∨ oracle k creditors = Except.error ()) :
    (consolidate_batch oracle k creditors).1 = strip_source_pages creditors
    ∧ (consolidate_batch oracle k creditors).1.length = creditors.length
    ∧ (∀ r ∈ creditors, dictGet (dictPop r "_source_pages") "_source_pages" = none
        ∧ ∀ key, key ≠ "_source_pages" →
            dictGet (dictPop r "_source_pages") key = dictGet r key) := by
  have hmain : (consolidate_batch oracle k creditors).1 = strip_source_pages creditors := by
    unfold consolidate_batch
    rcases hsvc with h | h
    · rw [h]
      rfl
    · rw [h]
  refine ⟨hmain, by rw [hmain, strip_source_pages_length], ?_⟩
  intro r _
  exact ⟨dictGet_dictPop_same r _, fun key hk => dictGet_dictPop_ne r _ key hk⟩

/-- Witness for C2 at a concrete batch and an empty service response. -/
theorem consolidate_batch_fallback_witness :
    (consolidate_batch (fun _ _ => Except.ok []) 0
        [[("nome", JValue.str "A"), ("_source_pages", JValue.str "1-10")]]).1
      = [[("nome", JValue.str "A")]] := by
  have h := consolidate_batch_fallback (fun _ _ => Except.ok []) 0
    [[("nome", JValue.str "A"), ("_source_pages", JValue.str "1-10")]]
    (List.cons_ne_nil _ _) (Or.inl rfl)
  exact h.1.trans rfl

/-- Counterexample to claim C7 as stated: with a service response whose
parsed array holds two records for a one-record prompt, `consolidate`
returns two records — strictly more than it was given; the code never
checks an upper bound on the parsed result. -/
theorem consolidate_can_return_more_than_input :
    ([[("nome", JValue.str "A")]] : List Record).length
      < (consolidate_creditors_with_ai
          (fun _ _ => Except.ok [[("nome", JValue.str "A")], [("nome", JValue.str "B")]])
          0 [[("nome", JValue.str "A")]]).1.length := by
  decide

/-- Claim C7 as amended: whenever every successful service response
carries at most as many records as the batch it was prompted with,
`consolidate` returns at most as many records as its input. -/
theorem consolidate_len_le_of_nonexpansive (oracle : ConsOracle)
    (hor : ∀ j b rs, oracle j b = Except.ok rs → rs.length ≤ b.length)
    (k : Nat) (creditors : List Record) :
    (consolidate_creditors_with_ai oracle k creditors).1.length
      ≤ creditors.length := by
  unfold consolidate_creditors_with_ai
  by_cases hle : creditors.length ≤ 150
  · rw [if_pos hle]
    exact consolidate_batch_len_le oracle hor k creditors
  · rw [if_neg hle]
    simpa using consolidate_loop_len_le oracle hor creditors.length creditors [] k le_rfl

/-- Witness for the amended C7 with the identity service. -/
theorem consolidate_len_le_of_nonexpansive_witness :
    (consolidate_creditors_with_ai (fun _ b => Except.ok b) 0
        [[("nome", JValue.str "A")]]).1.length ≤ 1 := by
  have h := consolidate_len_le_of_nonexpansive (fun _ b => Except.ok b)
    (fun j b rs hok => by injection hok with h2; rw [h2]) 0
    [[("nome", JValue.str "A")]]
  simpa using h

/-- Claim C10: for every non-empty input record list and every behavior
of the generative service — arbitrary exceptions and arbitrary parsed
responses — `consolidate` returns a non-empty record list. -/
theorem consolidate_nonempty_of_nonempty (oracle : ConsOracle) (k : Nat)
    (creditors : List Record) (hne : creditors ≠ []) :
    (consolidate_creditors_with_ai oracle k creditors).1 ≠ [] := by
  unfold consolidate_creditors_with_ai
  by_cases hle : creditors.length ≤ 150
  · rw [if_pos hle]
    exact consolidate_batch_ne_nil oracle k creditors hne
  · rw [if_neg hle]
    exact consolidate_loop_ne_nil oracle creditors.length creditors [] k le_rfl
      (Or.inl hne)

/-- Witness for C10 with a service that always throws. -/
theorem consolidate_nonempty_of_nonempty_witness :
    (consolidate_creditors_with_ai (fun _ _ => Except.error ()) 0
        [[("nome", JValue.str "A")]]).1 ≠ [] :=
  consolidate_nonempty_of_nonempty _ 0 _ (List.cons_ne_nil _ _)

/-- Claim C5: for every input string, the Response Parser terminates
without raising: in array mode it returns a value that `json.loads`
produced for one of the strategies' candidate texts or, when every
strategy fails, the empty list; in object mode likewise, with the
canonical default object — all four diff-category lists empty and all
six summary counts zero — on total failure. -/
theorem parser_never_raises (s : String) :
    ((∃ t ∈ arr_strategies s, json_loads t = some (parse_ai_response s))
      ∨ (all_strategies_fail_arr s = true ∧ parse_ai_response s = JValue.arr []))
    ∧ ((∃ t ∈ obj_strategies s, json_loads t = some (parse_comparison_response s))
      ∨ (all_strategies_fail_obj s = true ∧ parse_comparison_response s
          = JValue.obj
              [("new_creditors", JValue.arr []),
               ("removed_creditors", JValue.arr []),
               ("modified_creditors", JValue.arr []),
               ("unchanged_creditors", JValue.arr []),
               ("summary", JValue.obj
                 [("total_old", JValue.num "0"),
                  ("total_new", JValue.num "0"),
                  ("new_count", JValue.num "0"),
                  ("removed_count", JValue.num "0"),
                  ("modified_count", JValue.num "0"),
                  ("unchanged_count", JValue.num "0")])])) := by
  constructor
  · unfold parse_ai_response
    cases h1 : json_loads s with
    | some v => exact Or.inl ⟨s, by simp [arr_strategies], h1⟩
    | none =>
      cases h2 : (strategy_code_block s).bind json_loads with
      | some v =>
        rcases Option.bind_eq_some.mp h2 with ⟨t, ht, htv⟩
        exact Or.inl ⟨t, by simp [arr_strategies, ht], htv⟩
      | none =>
        cases h3 : (strategy_array_span s).bind json_loads with
        | some v =>
          rcases Option.bind_eq_some.mp h3 with ⟨t, ht, htv⟩
          exact Or.inl ⟨t, by simp [arr_strategies, ht], htv⟩
        | none =>
          cases h4 : json_loads (strategy_cleaned s) with
          | some v =>
            exact Or.inl ⟨strategy_cleaned s, by simp [arr_strategies], h4⟩
          | none =>
            refine Or.inr ⟨?_, rfl⟩
            unfold all_strategies_fail_arr
            refine List.all_eq_true.mpr ?_
            intro t ht
            simp only [arr_strategies, List.mem_append, List.mem_singleton,
              Option.mem_toList, Option.mem_def] at ht
            rcases ht with ((ht | ht) | ht) | ht
            · subst ht
              simp [h1]
            · rw [ht] at h2
              simp only [Option.some_bind] at h2
              simp [h2]
            · rw [ht] at h3
              simp only [Option.some_bind] at h3
              simp [h3]
            · subst ht
              simp [h4]
  · unfold parse_comparison_response
    cases h1 : json_loads s with
    | some v => exact Or.inl ⟨s, by simp [obj_strategies], h1⟩
    | none =>
      cases h2 : (strategy_code_block s).bind json_loads with
      | some v =>
        rcases Option.bind_eq_some.mp h2 with ⟨t, ht, htv⟩
        exact Or.inl ⟨t, by simp [obj_strategies, ht], htv⟩
      | none =>
        cases h3 : (strategy_object_span s).bind json_loads with
        | some v =>
          rcases Option.bind_eq_some.mp h3 with ⟨t, ht, htv⟩
          exact Or.inl ⟨t, by simp [obj_strategies, ht], htv⟩
        | none =>
          refine Or.inr ⟨?_, rfl⟩
          unfold all_strategies_fail_obj
          refine List.all_eq_true.mpr ?_
          intro t ht
          simp only [obj_strategies, List.mem_append, List.mem_singleton,
            Option.mem_toList, Option.mem_def] at ht
          rcases ht with (ht | ht) | ht
          · subst ht
            simp [h1]
          · rw [ht] at h2
            simp only [Option.some_bind] at h2
            simp [h2]
          · rw [ht] at h3
            simp only [Option.some_bind] at h3
            simp [h3]

theorem parse_comparison_default_of_fail (s : String)
    (h : all_strategies_fail_obj s = true) :
    parse_comparison_response s = default_comparison_result := by
  have hall : ∀ t ∈ obj_strategies s, json_loads t = none := by
    intro t ht
    have := List.all_eq_true.mp h t ht
    simpa [Option.isNone_iff_eq_none] using this
  have h1 : json_loads s = none := hall s (by simp [obj_strategies])
  have h2 : (strategy_code_block s).bind json_loads = none := by
    cases hc : strategy_code_block s with
    | none => rfl
    | some t => simpa using hall t (by simp [obj_strategies, hc])
  have h3 : (strategy_object_span s).bind json_loads = none := by
    cases hc : strategy_object_span s with
    | none => rfl
    | some t => simpa using hall t (by simp [obj_strategies, hc])
  unfold parse_comparison_response
  rw [h1, h2, h3]

/-- Claim C6: `compare` raises a comparison error exactly when the
service call throws or the response content is empty; with non-empty
content it returns the object-mode parse without raising, and when
every strategy fails on that content the returned value is the default
all-zero ComparisonResult. -/
theorem compare_error_iff (old_creditors new_creditors : List Record)
    (svc : Except Unit String) :
    (compare_creditors_with_ai old_creditors new_creditors svc = Except.error ()
      ↔ svc = Except.error () ∨ svc = Except.ok "")
    ∧ (∀ s, svc = Except.ok s → s ≠ "" →
        compare_creditors_with_ai old_creditors new_creditors svc
          = Except.ok (parse_comparison_response s))
    ∧ (∀ s, svc = Except.ok s → s ≠ "" → all_strategies_fail_obj s = true →
        compare_creditors_with_ai old_creditors new_creditors svc
          = Except.ok default_comparison_result) := by
  refine ⟨?_, ?_, ?_⟩
  · cases svc with
    | error e =>
      cases e
      simp [compare_creditors_with_ai]
    | ok content =>
      by_cases hc : content = ""
      · subst hc
        simp [compare_creditors_with_ai]
      · simp [compare_creditors_with_ai, hc]
  · intro s hs hne
    subst hs
    simp [compare_creditors_with_ai, hne]
  · intro s hs hne hfail
    subst hs
    simp [compare_creditors_with_ai, hne, parse_comparison_default_of_fail s hfail]

/-- Witness for C6: unparseable non-empty content degrades to the
default all-zero result rather than raising. -/
theorem compare_error_iff_witness :
    compare_creditors_with_ai [] [] (Except.ok "junk")
      = Except.ok default_comparison_result := by
  have h := compare_error_iff [] [] (Except.ok "junk")
  exact h.2.2 "junk" rfl (by decide) (by decide)

/-- Counterexample to claim C1 as stated: for a service response that
parses to an empty object, `compare` returns that result unchanged even
though the old record appears in none of the four classification
buckets — the partition is not validated by the core before the result
is returned. -/
theorem compare_no_partition_validation :
    compare_creditors_with_ai [[("nome", JValue.str "A")]] [] (Except.ok "{}")
      = Except.ok (JValue.obj [])
    ∧ comparison_partition_ok [[("nome", JValue.str "A")]] [] (JValue.obj [])
        = false :=
  ⟨rfl, rfl⟩

/-- Claim C1 as amended: the core performs no partition validation —
whenever the service call succeeds with non-empty content, `compare`
returns exactly the object-mode parse of the content, so the
new/removed/modified/unchanged partition of the inputs and the summary
counts hold only if the service's parsed response already satisfies
them. -/
theorem compare_returns_parse_unvalidated (old_creditors new_creditors : List Record)
    (s : String) (hne : s ≠ "") :
    compare_creditors_with_ai old_creditors new_creditors (Except.ok s)
      = Except.ok (parse_comparison_response s) := by
  simp [compare_creditors_with_ai, hne]

/-- Witness for the amended C1. -/
theorem compare_returns_parse_unvalidated_witness :
    compare_creditors_with_ai [] [] (Except.ok "{}")
      = Except.ok (JValue.obj []) := by
  have h := compare_returns_parse_unvalidated [] [] "{}" (by decide)
  exact h.trans rfl

/-- Counterexample to claim C4 as stated: with one chunk whose service
response content is empty, `extract_creditors_from_chunks` succeeds
with zero records (the parser degrades the empty content to the empty
list and no empty-response check is performed), while the spec-modelled
composition that invokes `extractFromText` per chunk fails with an
extraction error. -/
theorem chunks_do_not_fail_on_empty_content :
    (extract_creditors_from_chunks (fun _ => Except.ok "")
        (fun _ _ => Except.error ()) [⟨"text", 1, 10, 10⟩]).2 = Except.ok ([], 0)
    ∧ extract_from_chunks_spec (fun _ => Except.ok "") 0 [⟨"text", 1, 10, 10⟩]
        = Except.error () :=
  ⟨rfl, rfl⟩

/-- Claim C4 as amended: `extract_creditors_from_chunks` inlines the
per-chunk extraction without the empty-response check of
`extract_creditors`: a chunk whose service response content is empty
contributes zero records to the accumulation and does not fail the run,
whereas `extract_creditors` itself raises an extraction error on the
same empty content. -/
theorem empty_chunk_contributes_nothing (svc : ExtOracle) (i : Nat) (c : Chunk)
    (h : svc i = Except.ok "") :
    chunk_records svc i c = Except.ok []
    ∧ extract_creditors (Except.ok "") = Except.error () := by
  constructor
  · unfold chunk_records
    rw [h]
    rfl
  · rfl

/-- Witness for the amended C4. -/
theorem empty_chunk_contributes_nothing_witness :
    chunk_records (fun _ => Except.ok "") 0 ⟨"text", 1, 10, 10⟩ = Except.ok []
    ∧ extract_creditors (Except.ok "") = Except.error () :=
  empty_chunk_contributes_nothing (fun _ => Except.ok "") 0 ⟨"text", 1, 10, 10⟩ rfl

/-- Counterexample to claim C8 as stated: two chunks and both service
calls succeed, but the first response content is `5` — valid JSON that
is not an array — so the tagging loop raises a `TypeError` and the run
aborts after one callback invocation instead of the claimed two. -/
theorem callback_not_invoked_for_every_chunk :
    (extract_creditors_from_chunks
        (fun i => if i = 0 then Except.ok "5" else Except.ok "[]")
        (fun _ _ => Except.error ())
        [⟨"a", 1, 20, 40⟩, ⟨"b", 21, 40, 40⟩]).1
      = [(0, 2, 1, 20)]
    ∧ ([⟨"a", 1, 20, 40⟩, ⟨"b", 21, 40, 40⟩] : List Chunk).length = 2 :=
  ⟨rfl, rfl⟩

theorem run_chunks_trace_of_ok (svc : ExtOracle) (total : Nat) :
    ∀ (cs : List Chunk) (i : Nat) (all : List Record),
      (run_chunks svc total i cs).2 = Except.ok all →
      (run_chunks svc total i cs).1
        = (cs.enumFrom i).map (fun p => (p.1, total, p.2.start_page, p.2.end_page)) := by
  intro cs
  induction cs with
  | nil => intro i all _; rfl
  | cons c t ih =>
    intro i all hok
    simp only [run_chunks] at hok ⊢
    cases hr : chunk_records svc i c with
    | error e =>
      rw [hr] at hok
      simp at hok
    | ok recs =>
      rw [hr] at hok
      dsimp only at hok ⊢
      cases hrest : (run_chunks svc total (i + 1) t).2 with
      | error e =>
        rw [hrest] at hok
        exact Except.noConfusion hok
      | ok tall =>
        simp only [List.enumFrom, List.map_cons]
        exact congrArg _ (ih (i + 1) tall hrest)

/-- Claim C8 as amended: when every per-chunk step succeeds — the
service call returns and its content parses to a record array, which is
exactly when the operation returns a result instead of raising — the
progress callback is invoked exactly once per chunk, in chunk order,
the i-th invocation carrying `(i, K, start page, end page)` with
`K` the number of chunks and indices running from 0. -/
theorem callback_trace_of_success (svc : ExtOracle) (oracle : ConsOracle)
    (chunks : List Chunk) (res : List Record × Nat)
    (hok : (extract_creditors_from_chunks svc oracle chunks).2 = Except.ok res) :
    (extract_creditors_from_chunks svc oracle chunks).1
      = chunks.enum.map (fun p => (p.1, chunks.length, p.2.start_page, p.2.end_page))
    ∧ (extract_creditors_from_chunks svc oracle chunks).1.length = chunks.length := by
  have h2 : ∃ all, (run_chunks svc chunks.length 0 chunks).2 = Except.ok all := by
    unfold extract_creditors_from_chunks at hok
    dsimp only at hok
    cases hr : (run_chunks svc chunks.length 0 chunks).2 with
    | error e =>
      rw [hr] at hok
      simp at hok
    | ok all => exact ⟨all, rfl⟩
  obtain ⟨all, hall⟩ := h2
  have htrace := run_chunks_trace_of_ok svc chunks.length chunks 0 all hall
  have hfst : (extract_creditors_from_chunks svc oracle chunks).1
      = (run_chunks svc chunks.length 0 chunks).1 := rfl
  constructor
  · rw [hfst, htrace, List.enum]
  · rw [hfst, htrace]
    simp [List.enumFrom_length]

/-- Witness for the amended C8 at two chunks with well-formed responses. -/
theorem callback_trace_of_success_witness :
    (extract_creditors_from_chunks (fun _ => Except.ok "[]")
        (fun _ _ => Except.error ()) [⟨"a", 1, 20, 40⟩, ⟨"b", 21, 40, 40⟩]).1
      = [(0, 2, 1, 20), (1, 2, 21, 40)] := by
  have h := callback_trace_of_success (fun _ => Except.ok "[]")
    (fun _ _ => Except.error ()) [⟨"a", 1, 20, 40⟩, ⟨"b", 21, 40, 40⟩] ([], 0) rfl
  exact h.1.trans rfl

/-- Claim C9: every record accumulated before consolidation carries the
provenance field `_source_pages` whose value is exactly the string
`"start-end"` formed from the page range of the chunk that produced it;
consequently every record in the pre-consolidation accumulation carries
the page range of one of the processed chunks. -/
theorem accumulated_records_carry_source_pages :
    (∀ (svc : ExtOracle) (i : Nat) (c : Chunk) (rs : List Record),
        chunk_records svc i c = Except.ok rs →
        ∀ r ∈ rs, dictGet r "_source_pages" = some (JValue.str (page_range c)))
    ∧ (∀ (svc : ExtOracle) (total i : Nat) (cs : List Chunk) (all : List Record),
        (run_chunks svc total i cs).2 = Except.ok all →
        ∀ r ∈ all, ∃ c ∈ cs, dictGet r "_source_pages"
          = some (JValue.str (page_range c))) := by
  have hchunk : ∀ (svc : ExtOracle) (i : Nat) (c : Chunk) (rs : List Record),
      chunk_records svc i c = Except.ok rs →
      ∀ r ∈ rs, dictGet r "_source_pages" = some (JValue.str (page_range c)) := by
    intro svc i c rs hok r hr
    unfold chunk_records at hok
    cases hsvc : svc i with
    | error e =>
      rw [hsvc] at hok
      exact Except.noConfusion hok
    | ok content =>
      rw [hsvc] at hok
      unfold tag_records at hok
      dsimp only at hok
      cases hv : parse_ai_response content with
      | null =>
        rw [hv] at hok
        exact Except.noConfusion hok
      | bool b =>
        rw [hv] at hok
        exact Except.noConfusion hok
      | num n =>
        rw [hv] at hok
        exact Except.noConfusion hok
      | str s =>
        rw [hv] at hok
        dsimp only at hok
        by_cases hs : s.isEmpty
        · rw [if_pos hs] at hok
          have : rs = [] := (Except.ok.inj hok).symm
          subst this
          exact absurd hr (List.not_mem_nil r)
        · rw [if_neg hs] at hok
          exact Except.noConfusion hok
      | obj fs =>
        rw [hv] at hok
        dsimp only at hok
        by_cases hs : fs.isEmpty
        · rw [if_pos hs] at hok
          have : rs = [] := (Except.ok.inj hok).symm
          subst this
          exact absurd hr (List.not_mem_nil r)
        · rw [if_neg hs] at hok
          exact Except.noConfusion hok
      | arr xs =>
        rw [hv] at hok
        dsimp only at hok
        by_cases hall : xs.all (fun x => match x with | .obj _ => true | _ => false)
        · rw [if_pos hall] at hok
          have hrs : rs = xs.map (fun x =>
              match x with
              | .obj fs => dictSet fs "_source_pages" (.str (page_range c))
              | _ => []) := (Except.ok.inj hok).symm
          subst hrs
          rcases List.mem_map.mp hr with ⟨x, hxmem, hxeq⟩
          have hobj := List.all_eq_true.mp hall x hxmem
          cases x with
          | obj fs =>
            rw [← hxeq]
            exact dictGet_dictSet_same fs _ _
          | null => exact Bool.noConfusion hobj
          | bool b => exact Bool.noConfusion hobj
          | num n => exact Bool.noConfusion hobj
          | str s => exact Bool.noConfusion hobj
          | arr ys => exact Bool.noConfusion hobj
        · rw [if_neg hall] at hok
          exact Except.noConfusion hok
  refine ⟨hchunk, ?_⟩
  intro svc total i cs
  induction cs generalizing i with
  | nil =>
    intro all hok r hr
    simp only [run_chunks] at hok
    have : all = [] := (Except.ok.inj hok).symm
    subst this
    exact absurd hr (List.not_mem_nil r)
  | cons c t ih =>
    intro all hok r hr
    simp only [run_chunks] at hok
    cases hcr : chunk_records svc i c with
    | error e =>
      rw [hcr] at hok
      exact Except.noConfusion hok
    | ok recs =>
      rw [hcr] at hok
      dsimp only at hok
      cases hrest : (run_chunks svc total (i + 1) t).2 with
      | error e =>
        rw [hrest] at hok
        exact Except.noConfusion hok
      | ok tall =>
        rw [hrest] at hok
        dsimp only [Except.map] at hok
        have hall2 : all = recs ++ tall := (Except.ok.inj hok).symm
        subst hall2
        rcases List.mem_append.mp hr with hmem | hmem
        · exact ⟨c, List.mem_cons_self c t, hchunk svc i c recs hcr r hmem⟩
        · rcases ih (i + 1) tall hrest r hmem with ⟨c2, hc2, hget⟩
          exact ⟨c2, List.mem_cons_of_mem c hc2, hget⟩

/-- Witness for C9 at one chunk producing one record. -/
theorem accumulated_records_carry_source_pages_witness :
    dictGet [("nome", JValue.str "A"), ("_source_pages", JValue.str "1-20")]
      "_source_pages" = some (JValue.str "1-20") := by
  have h := accumulated_records_carry_source_pages.1
    (fun _ => Except.ok "[\x7b\"nome\": \"A\"\x7d]") 0 ⟨"a", 1, 20, 40⟩
    [[("nome", JValue.str "A"), ("_source_pages", JValue.str "1-20")]]
    rfl [("nome", JValue.str "A"), ("_source_pages", JValue.str "1-20")] (by simp)
  exact h

/-! Lemmas about the content-string-level consolidation model. -/

theorem recordsToJ_append (a b : List Record) :
    pyAdd (recordsToJ a) (recordsToJ b) = Except.ok (recordsToJ (a ++ b)) := by
  simp [recordsToJ, pyAdd]

theorem pyTruthy_recordsToJ (rs : List Record) :
    pyTruthy (recordsToJ rs) = !rs.isEmpty := by
  cases rs <;> rfl

theorem pyLen_recordsToJ (rs : List Record) :
    pyLen (recordsToJ rs) = Except.ok rs.length := by
  simp [pyLen, recordsToJ]

theorem popLoop_recordsToJ (rs : List Record) :
    popLoop (recordsToJ rs) = Except.ok (recordsToJ (strip_source_pages rs)) := by
  have hall : ((rs.map JValue.obj).all
      (fun x => match x with | .obj _ => true | _ => false)) = true := by
    refine List.all_eq_true.mpr ?_
    intro x hx
    rcases List.mem_map.mp hx with ⟨r, _, rfl⟩
    rfl
  show popLoop (JValue.arr (rs.map JValue.obj)) = _
  unfold popLoop
  dsimp only
  rw [if_pos hall]
  unfold recordsToJ strip_source_pages
  simp only [List.map_map]
  rfl

theorem consolidate_loop_src_nil (svc : Nat → Except Unit String)
    (fuel k : Nat) (acc : JValue) :
    consolidate_loop_src svc fuel k [] acc = (Except.ok acc, k) := by
  cases fuel <;> rfl

theorem consolidate_batch_src_count (svc : Nat → Except Unit String) (k : Nat)
    (rs : List Record) :
    (consolidate_batch_src svc k (recordsToJ rs)).2 = k + 1 := by
  unfold consolidate_batch_src
  rw [pyLen_recordsToJ]
  dsimp only
  cases svc k with
  | error e => rfl
  | ok content =>
    dsimp only
    by_cases ht : pyTruthy (parse_ai_response content) = true
    · rw [if_pos ht]
      cases hl : pyLen (parse_ai_response content) with
      | error e => rfl
      | ok n =>
        dsimp only
        by_cases hn : n > 0
        · rw [if_pos hn]
        · rw [if_neg hn]
    · rw [if_neg ht]

theorem consolidate_batch_src_spec (svc : Nat → Except Unit String)
    (hsvc : ∀ j content, svc j = Except.ok content →
        ∃ rs2 : List Record, parse_ai_response content = recordsToJ rs2)
    (k : Nat) (rs : List Record) (hne : rs ≠ []) :
    ∃ out : List Record, out ≠ []
      ∧ consolidate_batch_src svc k (recordsToJ rs)
          = (Except.ok (recordsToJ out), k + 1) := by
  have hstrip : strip_source_pages rs ≠ [] := by
    simpa [strip_source_pages] using hne
  unfold consolidate_batch_src
  rw [pyLen_recordsToJ]
  dsimp only
  cases hs : svc k with
  | error e =>
    refine ⟨strip_source_pages rs, hstrip, ?_⟩
    dsimp only
    rw [popLoop_recordsToJ]
  | ok content =>
    obtain ⟨rs2, hp⟩ := hsvc k content hs
    dsimp only
    rw [hp, pyTruthy_recordsToJ]
    cases rs2 with
    | nil =>
      refine ⟨strip_source_pages rs, hstrip, ?_⟩
      rw [if_neg (by simp), popLoop_recordsToJ]
    | cons a t =>
      refine ⟨a :: t, List.cons_ne_nil a t, ?_⟩
      rw [if_pos (by simp), pyLen_recordsToJ]
      dsimp only
      rw [if_pos (by simp)]

theorem consolidate_loop_src_calls_ne (svc : Nat → Except Unit String)
    (hsvc : ∀ j content, svc j = Except.ok content →
        ∃ rs2 : List Record, parse_ai_response content = recordsToJ rs2) :
    ∀ (fuel : Nat) (remaining acc : List Record) (k : Nat),
      remaining.length ≤ fuel → remaining ≠ [] → acc ≠ [] →
      ∃ out : List Record, out ≠ []
        ∧ consolidate_loop_src svc fuel k remaining (recordsToJ acc)
            = (Except.ok (recordsToJ out),
               k + 2 * ((remaining.length + 99) / 100)) := by
  intro fuel
  induction fuel with
  | zero =>
    intro remaining acc k hle hne hacc
    cases remaining with
    | nil => exact absurd rfl hne
    | cons a t => simp at hle
  | succ n ih =>
    intro remaining acc k hle hne hacc
    have hie : remaining.isEmpty = false := by
      cases remaining with
      | nil => exact absurd rfl hne
      | cons a t => rfl
    have htake : remaining.take 100 ≠ [] := by
      cases remaining with
      | nil => exact absurd rfl hne
      | cons a t => simp [List.take]
    have hlen1 : 1 ≤ remaining.length := List.length_pos.mpr hne
    have htr : pyTruthy (recordsToJ acc) = true := by
      rw [pyTruthy_recordsToJ]
      cases acc with
      | nil => exact absurd rfl hacc
      | cons x y => rfl
    simp only [consolidate_loop_src]
    rw [if_neg (by simp [hie])]
    obtain ⟨b1, hb1ne, hb1⟩ := consolidate_batch_src_spec svc hsvc k
      (remaining.take 100) htake
    rw [hb1]
    dsimp only
    rw [if_pos htr, recordsToJ_append]
    dsimp only
    obtain ⟨m, hmne, hm⟩ := consolidate_batch_src_spec svc hsvc (k + 1)
      (acc ++ b1) (fun he => hacc (List.append_eq_nil.mp he).1)
    rw [hm]
    dsimp only
    by_cases hd : remaining.drop 100 = []
    · have hlen : remaining.length ≤ 100 := List.drop_eq_nil_iff.mp hd
      refine ⟨m, hmne, ?_⟩
      rw [hd, consolidate_loop_src_nil]
      have hcount : k + 2 * ((remaining.length + 99) / 100) = k + 1 + 1 := by omega
      rw [hcount]
    · have hlen : 100 < remaining.length := by
        by_contra hc
        exact hd (List.drop_eq_nil_iff.mpr (by omega))
      obtain ⟨out, houtne, hout⟩ := ih (remaining.drop 100) m (k + 1 + 1)
        (by simp only [List.length_drop]; omega) hd hmne
      refine ⟨out, houtne, ?_⟩
      rw [hout]
      have hcount : k + 2 * ((remaining.length + 99) / 100)
          = k + 1 + 1 + 2 * (((remaining.drop 100).length + 99) / 100) := by
        simp only [List.length_drop]
        omega
      rw [hcount]

theorem consolidate_loop_src_calls (svc : Nat → Except Unit String)
    (hsvc : ∀ j content, svc j = Except.ok content →
        ∃ rs2 : List Record, parse_ai_response content = recordsToJ rs2)
    (fuel : Nat) (remaining : List Record) (k : Nat)
    (hle : remaining.length ≤ fuel) (hne : remaining ≠ []) :
    ∃ out : List Record, out ≠ []
      ∧ consolidate_loop_src svc fuel k remaining (recordsToJ [])
          = (Except.ok (recordsToJ out),
             k + 2 * ((remaining.length + 99) / 100) - 1) := by
  cases fuel with
  | zero =>
    cases remaining with
    | nil => exact absurd rfl hne
    | cons a t => simp at hle
  | succ n =>
    have hie : remaining.isEmpty = false := by
      cases remaining with
      | nil => exact absurd rfl hne
      | cons a t => rfl
    have htake : remaining.take 100 ≠ [] := by
      cases remaining with
      | nil => exact absurd rfl hne
      | cons a t => simp [List.take]
    have hlen1 : 1 ≤ remaining.length := List.length_pos.mpr hne
    simp only [consolidate_loop_src]
    rw [if_neg (by simp [hie])]
    obtain ⟨b1, hb1ne, hb1⟩ := consolidate_batch_src_spec svc hsvc k
      (remaining.take 100) htake
    rw [hb1]
    dsimp only
    rw [if_neg (by decide)]
    by_cases hd : remaining.drop 100 = []
    · have hlen : remaining.length ≤ 100 := List.drop_eq_nil_iff.mp hd
      refine ⟨b1, hb1ne, ?_⟩
      rw [hd, consolidate_loop_src_nil]
      have hcount : k + 2 * ((remaining.length + 99) / 100) - 1 = k + 1 := by omega
      rw [hcount]
    · have hlen : 100 < remaining.length := by
        by_contra hc
        exact hd (List.drop_eq_nil_iff.mpr (by omega))
      obtain ⟨out, houtne, hout⟩ := consolidate_loop_src_calls_ne svc hsvc n
        (remaining.drop 100) b1 (k + 1)
        (by simp only [List.length_drop]; omega) hd hb1ne
      refine ⟨out, houtne, ?_⟩
      rw [hout]
      have hcount : k + 2 * ((remaining.length + 99) / 100) - 1
          = k + 1 + 2 * (((remaining.drop 100).length + 99) / 100) := by
        simp only [List.length_drop]
        omega
      rw [hcount]

set_option maxRecDepth 8192 in
/-- Counterexample to claim C3 as stated: 151 input records (more than
150, so two batches), both service calls succeed, but the first
response content is the JSON string `"abc"` — a truthy value of
positive length, which `_consolidate_batch` returns as is — so the
fold's concatenation of a string with the second batch's list raises
`TypeError` into the outer handler: the run issues 2 service calls and
returns the stripped original records, not the claimed
`2 * ceil(151/100) - 1 = 3` calls. -/
theorem consolidate_call_count_not_exact :
    (List.replicate 151 ([("nome", JValue.str "A")] : Record)).length = 151
    ∧ (consolidate_creditors_src
        (fun j => if j = 0 then Except.ok "\"abc\"" else Except.ok "[]")
        (List.replicate 151 [("nome", JValue.str "A")])).2 = 2
    ∧ (consolidate_creditors_src
        (fun j => if j = 0 then Except.ok "\"abc\"" else Except.ok "[]")
        (List.replicate 151 [("nome", JValue.str "A")])).1
        = recordsToJ (strip_source_pages (List.replicate 151 [("nome", JValue.str "A")]))
    ∧ 2 * ((151 + 99) / 100) - 1 = 3 :=
  ⟨rfl, rfl, rfl, rfl⟩

/-- Claim C3 as amended: for every input record list, whenever each
successful service response content parses to a JSON array of records
(calls may also throw or return unparseable content, both of which
degrade to the stripped batch), `consolidate` issues exactly one batch
call when the list has at most 150 records, and otherwise partitions it
into batches of 100 in original order and issues `ceil(N/100)` initial
batch calls plus one fold call per batch after the first, i.e.
`2 * ceil(N/100) - 1` service calls in total.  Without the array-shape
condition a truthy non-array parse can abort the batch loop early
through the fold's concatenation. -/
theorem consolidate_src_call_count (svc : Nat → Except Unit String)
    (hsvc : ∀ j content, svc j = Except.ok content →
        ∃ rs2 : List Record, parse_ai_response content = recordsToJ rs2)
    (creditors : List Record) :
    (consolidate_creditors_src svc creditors).2
      = if creditors.length ≤ 150 then 1
        else 2 * ((creditors.length + 99) / 100) - 1 := by
  unfold consolidate_creditors_src
  by_cases hle : creditors.length ≤ 150
  · rw [if_pos hle, if_pos hle]
    have hc := consolidate_batch_src_count svc 0 creditors
    rcases hb : consolidate_batch_src svc 0 (recordsToJ creditors) with ⟨res, kk⟩
    rw [hb] at hc
    cases res with
    | error e =>
      dsimp only
      exact hc
    | ok v =>
      dsimp only
      exact hc
  · rw [if_neg hle, if_neg hle]
    have hne : creditors ≠ [] := by
      intro he
      rw [he] at hle
      exact hle (by simp)
    rw [show (JValue.arr [] : JValue) = recordsToJ [] from rfl]
    obtain ⟨out, houtne, hout⟩ := consolidate_loop_src_calls svc hsvc
      creditors.length creditors 0 le_rfl hne
    rw [hout]
    dsimp only
    omega

set_option maxRecDepth 8192 in
/-- Witness for the amended C3 at 151 records with every response an
empty JSON array. -/
theorem consolidate_src_call_count_witness :
    (consolidate_creditors_src (fun _ => Except.ok "[]")
        (List.replicate 151 [("nome", JValue.str "A")])).2 = 3 := by
  have h := consolidate_src_call_count (fun _ => Except.ok "[]")
    (by
      intro j content hc
      refine ⟨[], ?_⟩
      injection hc with h2
      rw [← h2]
      rfl)
    (List.replicate 151 [("nome", JValue.str "A")])
  rw [h]
  decide
